import Mathlib

/-!
Verification development for the continuum-core text-classification and
repetition-detection engine (`continuum-core/src/compression.rs` and
`continuum-core/src/loop_detection.rs`).

The Rust code is shallowly embedded over `List Char` / `String`:

* Rust `&str` contents are Lean `String`s; the matching machinery walks
  `String.data : List Char`.
* The fixed regular expressions of `NoiseFilter::new` are embedded as
  executable matching functions over the concrete phrase alternatives they
  enumerate.  The pleasantry / acknowledgment patterns carry the `(?i)` flag
  and are matched against the ASCII-lowercased text (the patterns themselves
  are ASCII).  `\s` is embedded as `Char.isWhitespace` and `.` as
  "any character except a newline", matching the default (non-multiline,
  non-dotall) semantics of the Rust `regex` crate for these patterns.
* `Regex::replace_all` with the empty replacement is embedded by a fueled
  left-to-right scan over the original character list that removes
  non-overlapping matches and never rescans already-emitted output, exactly
  as `replace_all` iterates matches over its original haystack.
* Rust `str::len` (a count of UTF-8 bytes) is embedded as `byteLen`, the sum
  of the UTF-8 encoded sizes of the characters.
* The `DefaultHasher` digests of `loop_detection.rs` are used by the code
  solely as equality keys of a `HashMap`; they are embedded by the hashed
  data itself (the whitespace-normalized content for `hash_content`, the
  window of `(role, content)` pairs for the pattern pass), i.e. the hash is
  modelled as injective.
-/

namespace Continuum

set_option maxRecDepth 100000

/-! ### Character and string helpers -/

/-- UTF-8 encoded size of a character, as counted by Rust `str::len`. -/
def charSize (c : Char) : Nat :=
  if c.val < 0x80 then 1
  else if c.val < 0x800 then 2
  else if c.val < 0x10000 then 3
  else 4

/-- Byte length of a character list under UTF-8, Rust `str::len`. -/
def byteLen (l : List Char) : Nat := (l.map charSize).sum

/-- ASCII lowercasing of a character list, embedding the `(?i)` flag of the
ASCII patterns of `NoiseFilter::new`. -/
def lowerAscii (l : List Char) : List Char := l.map Char.toLower

/-- Drop leading whitespace, the left half of Rust `str::trim`. -/
def trimLeft (l : List Char) : List Char := l.dropWhile Char.isWhitespace

/-- Drop trailing whitespace, the right half of Rust `str::trim`, written as
a direct recursion so that proofs can proceed by structural induction. -/
def trimRight : List Char → List Char
  | [] => []
  | c :: t =>
    match trimRight t with
    | [] => if c.isWhitespace then [] else [c]
    | x :: xs => c :: x :: xs

/-- Rust `str::trim`: leading and trailing whitespace removed. -/
def trimWs (l : List Char) : List Char := trimRight (trimLeft l)

/-! ### The pleasantry / acknowledgment patterns of `NoiseFilter::new` -/

/-- The regex tail `\s*[.!]?\s*$`: optional whitespace, at most one `.` or
`!`, optional whitespace, end of text. -/
def tailPunctOpt (l : List Char) : Bool :=
  match l.dropWhile Char.isWhitespace with
  | [] => true
  | c :: rest => (c = '.' || c = '!') && (rest.dropWhile Char.isWhitespace).isEmpty

/-- The regex tail `[.!]*\s*$`: any run of `.` / `!`, then whitespace, then
end of text. -/
def tailPunctStar (l : List Char) : Bool :=
  ((l.dropWhile fun c => c = '.' || c = '!').dropWhile Char.isWhitespace).isEmpty

/-- A whole-string alternation `^(w₁|…|wₙ)tail$`: some alternative is a
prefix and the rest of the text matches the tail. -/
def matchWhole (words : List (List Char)) (tail : List Char → Bool) (l : List Char) : Bool :=
  words.any fun w => w.isPrefixOf l && tail (l.drop w.length)

/-- Alternatives of the standalone-pleasantry pattern
`(?i)^(please|thank you|…|good)\s*[.!]?\s*$`. -/
def simpleWords : List (List Char) :=
  [ "please", "thank you", "thanks", "sure", "ok", "okay", "got it",
    "understood", "great", "awesome", "perfect", "excellent", "nice",
    "good" ].map String.data

/-- Alternatives of the enthusiasm pattern
`(?i)^(this is (all )?(very )?(great|…)|how (cool|…)|very (cool|…))[.!]*\s*$`,
with the optional groups expanded. -/
def enthusiasmPhrases : List (List Char) :=
  (([ "this is ", "this is all ", "this is very ", "this is all very " ].flatMap
      fun p => [ "great", "amazing", "exciting", "wonderful", "fantastic",
                 "perfect", "excellent" ].map fun w => (p ++ w).data))
  ++ ([ "cool", "neat", "nice", "great" ].map fun w => ("how " ++ w).data)
  ++ ([ "cool", "nice", "exciting", "interesting" ].map fun w => ("very " ++ w).data)

/-- Alternatives of the polite-opener pattern
`(?i)^(if you (don't mind|could|would like)|would you like me to|let me|i'll|i will|i can)`.
The pattern is anchored at the start only: `is_match` succeeds on any text
that begins with one of these phrases. -/
def openerPhrases : List (List Char) :=
  [ "if you don't mind", "if you could", "if you would like",
    "would you like me to", "let me", "i'll", "i will", "i can" ].map String.data

/-- Alternatives of the polite-closer pattern
`(?i)(let me know if you (need|want|would like)|is there anything else|anything else i can help).*$`. -/
def closerPhrases : List (List Char) :=
  [ "let me know if you need", "let me know if you want",
    "let me know if you would like", "is there anything else",
    "anything else i can help" ].map String.data

/-- One closer phrase starts here and `.*$` consumes to the end of the text:
the rest must contain no newline (`.` does not match `\n` by default). -/
def closerAt (l : List Char) : Bool :=
  closerPhrases.any fun w => w.isPrefixOf l && (l.drop w.length).all fun c => !(c = '\n')

/-- The closer pattern is unanchored: `is_match` searches every position. -/
def closerAnywhere : List Char → Bool
  | [] => false
  | c :: t => closerAt (c :: t) || closerAnywhere t

/-- `NoiseFilter::new`'s `pleasantries` list: the whole-string standalone and
enthusiasm patterns, the start-anchored opener pattern and the unanchored
closer pattern, each under `(?i)`. -/
def pleasantriesMatch (l : List Char) : Bool :=
  let low := lowerAscii l
  matchWhole simpleWords tailPunctOpt low
  || matchWhole enthusiasmPhrases tailPunctStar low
  || (openerPhrases.any fun w => w.isPrefixOf low)
  || closerAnywhere low

/-- `NoiseFilter::new`'s `acknowledgments` pattern
`(?i)^(i understand|i see|i got it|understood|noted|will do|on it|done)\s*[.!]?\s*$`. -/
def acknowledgmentsMatch (l : List Char) : Bool :=
  matchWhole
    ([ "i understand", "i see", "i got it", "understood", "noted",
       "will do", "on it", "done" ].map String.data)
    tailPunctOpt (lowerAscii l)

/-! ### Boilerplate stripping (`Regex::replace_all` with `""`) -/

/-- Find the first occurrence of `cl` and return the text after it (the lazy
`[\s\S]*?` takes the earliest possible closing tag). -/
def dropThrough (cl : List Char) : List Char → Option (List Char)
  | [] => none
  | c :: t =>
    if cl.isPrefixOf (c :: t) then some ((c :: t).drop cl.length)
    else dropThrough cl t

/-- Fueled scan for `replace_all` of `op[\s\S]*?cl` by `""`: emit characters
until `op` matches; on a match, skip through the first following `cl` and
continue after it (matches are non-overlapping and found in the original
text — emitted output is never rescanned).  If `op` matches but no `cl`
follows, no match starts here or later, so the rest is emitted unchanged.
Each recursive call shortens the list, so fuel `l.length` never runs out. -/
def stripTagF (op cl : List Char) : Nat → List Char → List Char
  | 0, l => l
  | _ + 1, [] => []
  | fuel + 1, c :: t =>
    if op.isPrefixOf (c :: t) then
      match dropThrough cl ((c :: t).drop op.length) with
      | some rest => stripTagF op cl fuel rest
      | none => c :: t
    else c :: stripTagF op cl fuel t

/-- `replace_all` of the delimited-block pattern `op[\s\S]*?cl` by `""`. -/
def stripTag (op cl l : List Char) : List Char := stripTagF op cl l.length l

/-- Fueled scan for `replace_all` of a literal `w` by `""`. -/
def stripLitF (w : List Char) : Nat → List Char → List Char
  | 0, l => l
  | _ + 1, [] => []
  | fuel + 1, c :: t =>
    if w.isPrefixOf (c :: t) then stripLitF w fuel ((c :: t).drop w.length)
    else c :: stripLitF w fuel t

/-- `replace_all` of a literal pattern `w` by `""`. -/
def stripLit (w l : List Char) : List Char := stripLitF w l.length l

/-- The three boilerplate patterns of `NoiseFilter::new`, applied in source
order, each `replace_all` rescanning the previous result from scratch. -/
def stripBoilerplate (l : List Char) : List Char :=
  stripLit "<system>Tool ran without output or errors</system>".data
    (stripTag "<system-reminder>".data "</system-reminder>".data
      (stripTag "<environment_context>".data "</environment_context>".data l))

/-! ### `NoiseFilter::filter` and `MessageCompressor::compress_batch` -/

/-- The local `cleaned` of `NoiseFilter::filter`: boilerplate removed, then
whitespace trimmed. -/
def noiseCleaned (content : String) : List Char :=
  trimWs (stripBoilerplate content.data)

/-- `NoiseFilter::filter`: strip boilerplate, trim, drop the message whole
when a pleasantry or acknowledgment pattern matches, drop it when it is
empty or fewer than 3 bytes remain, otherwise return the cleaned text. -/
def NoiseFilter.filter (content : String) : Option String :=
  if pleasantriesMatch (noiseCleaned content) then none
  else if acknowledgmentsMatch (noiseCleaned content) then none
  else if (noiseCleaned content).isEmpty || decide (byteLen (noiseCleaned content) < 3) then none
  else some (String.mk (noiseCleaned content))

/-- `NoiseFilter::is_noise`. -/
def NoiseFilter.is_noise (content : String) : Bool :=
  (NoiseFilter.filter content).isNone

/-- `MessageCompressor::compress_batch`: filter each `(role, content)` pair
independently, keeping the role and the cleaned content of the survivors. -/
def MessageCompressor.compress_batch (messages : List (String × String)) :
    List (String × String) :=
  messages.filterMap fun m => (NoiseFilter.filter m.2).map fun cleaned => (m.1, cleaned)

/-! ### Loop detection (`loop_detection.rs`) -/

/-- `LoopSeverity`. -/
inductive LoopSeverity where
  | Warning
  | Critical
deriving DecidableEq

/-- `LoopDetection`. -/
structure LoopDetection where
  severity : LoopSeverity
  message : String
  repetition_count : Nat
  pattern_size : Nat
deriving DecidableEq

/-- `LoopDetector`'s threshold configuration. -/
structure LoopDetector where
  max_messages_warning : Nat
  max_messages_critical : Nat
  min_repetitions : Nat
  max_pattern_size : Nat

/-- `LoopDetector::new`. -/
def LoopDetector.new : LoopDetector :=
  { max_messages_warning := 100
    max_messages_critical := 200
    min_repetitions := 10
    max_pattern_size := 10 }

/-- Rust `str::split_whitespace`: maximal non-whitespace runs, empty runs
dropped.  The accumulator holds the current word reversed. -/
def splitWsAux : List Char → List Char → List (List Char)
  | [], acc => if acc.isEmpty then [] else [acc.reverse]
  | c :: t, acc =>
    if c.isWhitespace then
      if acc.isEmpty then splitWsAux t [] else acc.reverse :: splitWsAux t []
    else splitWsAux t (c :: acc)

/-- Join words with single spaces (`.join(" ")`). -/
def joinSpace : List (List Char) → List Char
  | [] => []
  | [w] => w
  | w :: x :: ws => w ++ ' ' :: joinSpace (x :: ws)

/-- `LoopDetector::hash_content` normalizes whitespace and hashes; the
digest is modelled by the normalized text itself, which the code uses only
as a `HashMap` equality key. -/
def hash_content (content : String) : List Char :=
  joinSpace (splitWsAux content.data [])

/-- Occurrence count of `x` in a list, the entry `x` would hold in the
code's occurrence `HashMap`. -/
def countEq {α : Type} [DecidableEq α] (x : α) : List α → Nat
  | [] => 0
  | y :: t => (if y = x then 1 else 0) + countEq x t

/-- Maximum multiplicity of an element of `l`: the `max_count` the code
finds with `content_counts.iter().max_by_key(..)` over its occurrence map
(ties in the count leave `max_count` itself unaffected). -/
def maxCount {α : Type} [DecidableEq α] (l : List α) : Nat :=
  (l.map fun x => countEq x l).foldr max 0

/-- `LoopDetector::detect_content_repetition`: count each normalized
content, take the maximum count, and grade it against `min_repetitions`.
An empty batch gives an empty map, hence no finding. -/
def LoopDetector.detect_content_repetition (d : LoopDetector)
    (messages : List (String × String)) : Option LoopDetection :=
  match messages with
  | [] => none
  | _ :: _ =>
    if d.min_repetitions * 2 ≤ maxCount (messages.map fun m => hash_content m.2) then
      some { severity := LoopSeverity.Critical
             message := "Identical content repeated " ++
               toString (maxCount (messages.map fun m => hash_content m.2)) ++
               " times (threshold: " ++ toString (d.min_repetitions * 2) ++ ")"
             repetition_count := maxCount (messages.map fun m => hash_content m.2)
             pattern_size := 1 }
    else if d.min_repetitions ≤ maxCount (messages.map fun m => hash_content m.2) then
      some { severity := LoopSeverity.Warning
             message := "Content repeated " ++
               toString (maxCount (messages.map fun m => hash_content m.2)) ++
               " times (threshold: " ++ toString d.min_repetitions ++ ")"
             repetition_count := maxCount (messages.map fun m => hash_content m.2)
             pattern_size := 1 }
    else none

/-- Rust `slice::windows(k)`: contiguous windows of length `k`, none when
the list is shorter than `k` (the code only calls this with `k ≥ 2`). -/
def windows {α : Type} (k : Nat) : List α → List (List α)
  | [] => []
  | c :: t =>
    if (c :: t).length < k then []
    else (c :: t).take k :: windows k t

/-- `LoopDetector::find_repeating_pattern`: skip when the batch cannot hold
`min_repetitions` disjoint copies of the pattern, otherwise count each
window of `pattern_size` consecutive `(role, content)` pairs (the per-window
digest is modelled by the window itself) and grade the maximum count. -/
def LoopDetector.find_repeating_pattern (d : LoopDetector)
    (messages : List (String × String)) (pattern_size : Nat) : Option LoopDetection :=
  if messages.length < pattern_size * d.min_repetitions then none
  else
    match windows pattern_size messages with
    | [] => none
    | w :: ws =>
      if d.min_repetitions * 2 ≤ maxCount (w :: ws) then
        some { severity := LoopSeverity.Critical
               message := "Message pattern of " ++ toString pattern_size ++
                 " messages repeated " ++ toString (maxCount (w :: ws)) ++
                 " times (threshold: " ++ toString (d.min_repetitions * 2) ++ ")"
               repetition_count := maxCount (w :: ws)
               pattern_size := pattern_size }
      else if d.min_repetitions ≤ maxCount (w :: ws) then
        some { severity := LoopSeverity.Warning
               message := "Message pattern of " ++ toString pattern_size ++
                 " messages repeated " ++ toString (maxCount (w :: ws)) ++
                 " times (threshold: " ++ toString d.min_repetitions ++ ")"
               repetition_count := maxCount (w :: ws)
               pattern_size := pattern_size }
      else none

/-- `LoopDetector::detect_message_pattern_loops`: try pattern sizes
`2 ..= min(max_pattern_size, len/4)` in increasing order and return the
first hit (`List.range' 2 (u - 1)` is `[2, …, u]`, empty when `u < 2`). -/
def LoopDetector.detect_message_pattern_loops (d : LoopDetector)
    (messages : List (String × String)) : Option LoopDetection :=
  List.findSome? (d.find_repeating_pattern messages)
    (List.range' 2 (min d.max_pattern_size (messages.length / 4) - 1))

/-- The volume check of `LoopDetector::analyze` (check 1). -/
def LoopDetector.volumeCheck (d : LoopDetector) (message_count : Nat) : List LoopDetection :=
  if d.max_messages_critical ≤ message_count then
    [ { severity := LoopSeverity.Critical
        message := "Extremely high message count: " ++ toString message_count ++
          " messages (threshold: " ++ toString d.max_messages_critical ++ ")"
        repetition_count := 0
        pattern_size := 0 } ]
  else if d.max_messages_warning ≤ message_count then
    [ { severity := LoopSeverity.Warning
        message := "High message count: " ++ toString message_count ++
          " messages (threshold: " ++ toString d.max_messages_warning ++ ")"
        repetition_count := 0
        pattern_size := 0 } ]
  else []

/-- `LoopDetector::analyze`: the volume check, then the content-repetition
check, then the pattern check, pushed in that order. -/
def LoopDetector.analyze (d : LoopDetector) (messages : List (String × String)) :
    List LoopDetection :=
  d.volumeCheck messages.length
    ++ (d.detect_content_repetition messages).toList
    ++ (d.detect_message_pattern_loops messages).toList

/-! ### Concrete batches used as fixtures -/

/-- A batch of 20 messages with byte-identical content. -/
def batch20 : List (String × String) := List.replicate 20 ("user", "x")

/-- 19 identical messages followed by one different message. -/
def batch19 : List (String × String) :=
  List.replicate 19 ("user", "x") ++ [("user", "y")]

/-- A batch of exactly 100 messages with pairwise distinct contents. -/
def batch100 : List (String × String) :=
  (List.range 100).map fun i => ("u", String.mk [Char.ofNat (33 + i)])

/-- `n` repetitions of a fixed 2-message exchange. -/
def pairBatch (n : Nat) : List (String × String) :=
  (List.range n).flatMap fun _ => [("u", "a"), ("v", "b")]

/-! ### Sanity checks against the behaviour of the Rust unit tests -/

example : NoiseFilter.filter "please" = none := by decide
example : NoiseFilter.filter "Thank you!" = none := by decide
example : NoiseFilter.filter "okay" = none := by decide
example : NoiseFilter.filter "Great!" = none := by decide
example : NoiseFilter.filter "this is all very exciting" = none := by decide
example : NoiseFilter.filter "How cool!" = none := by decide
example : NoiseFilter.filter "Very interesting!" = none := by decide
example : NoiseFilter.filter "I understand" = none := by decide
example : NoiseFilter.filter "Understood." = none := by decide
example : NoiseFilter.filter "Will do!" = none := by decide
example : NoiseFilter.filter "Done" = none := by decide
example :
    NoiseFilter.filter "Here's the code you requested" =
      some "Here's the code you requested" := by decide
example :
    NoiseFilter.filter "<system-reminder>Some reminder</system-reminder>Actual content" =
      some "Actual content" := by decide

/-! ### Helper lemmas: trimming -/

theorem dropWhile_idem {α : Type} (p : α → Bool) (l : List α) :
    (l.dropWhile p).dropWhile p = l.dropWhile p := by
  induction l with
  | nil => rfl
  | cons c t ih =>
    by_cases hp : p c = true
    · simp [List.dropWhile_cons, hp, ih]
    · simp [List.dropWhile_cons, hp]

theorem dropWhile_length_le {α : Type} (p : α → Bool) (l : List α) :
    (l.dropWhile p).length ≤ l.length := by
  induction l with
  | nil => simp
  | cons c t ih =>
    by_cases hp : p c = true
    · simp only [List.dropWhile_cons, hp, if_true]
      exact le_trans ih (Nat.le_succ _)
    · simp [List.dropWhile_cons, hp]

theorem trimRight_cons (c : Char) (t : List Char) :
    trimRight (c :: t) =
      match trimRight t with
      | [] => if c.isWhitespace = true then [] else [c]
      | x :: xs => c :: x :: xs := rfl

theorem trimRight_trimRight (l : List Char) :
    trimRight (trimRight l) = trimRight l := by
  induction l with
  | nil => rfl
  | cons c t ih =>
    cases ht : trimRight t with
    | nil =>
      rw [trimRight_cons, ht]
      by_cases hc : c.isWhitespace = true
      · simp [hc, trimRight]
      · simp only [hc, Bool.false_eq_true, if_false]
        rw [trimRight_cons]
        simp [trimRight, hc]
    | cons x xs =>
      rw [ht] at ih
      rw [trimRight_cons, ht, trimRight_cons, ih]

theorem trimLeft_head_false {l : List Char} (h : trimLeft l = l) :
    ∀ c t, l = c :: t → c.isWhitespace = false := by
  intro c t he
  subst he
  by_cases hc : c.isWhitespace = true
  · exfalso
    have h1 : trimLeft (c :: t) = trimLeft t := by
      simp [trimLeft, List.dropWhile_cons, hc]
    rw [h1] at h
    have h2 : (List.dropWhile Char.isWhitespace t).length ≤ t.length :=
      dropWhile_length_le _ _
    have h3 : (trimLeft t).length = (c :: t).length := by rw [h]
    simp only [trimLeft, List.length_cons] at h3
    omega
  · simpa using hc

theorem trimLeft_trimRight_fix {l : List Char} (h : trimLeft l = l) :
    trimLeft (trimRight l) = trimRight l := by
  cases l with
  | nil => rfl
  | cons c t =>
    have hc : c.isWhitespace = false := trimLeft_head_false h c t rfl
    cases ht : trimRight t with
    | nil =>
      rw [trimRight_cons, ht]
      simp [hc, trimLeft, List.dropWhile_cons]
    | cons x xs =>
      rw [trimRight_cons, ht]
      simp [trimLeft, List.dropWhile_cons, hc]

theorem trimWs_idem (l : List Char) : trimWs (trimWs l) = trimWs l := by
  have h1 : trimLeft (trimLeft l) = trimLeft l := dropWhile_idem _ _
  have h2 : trimLeft (trimRight (trimLeft l)) = trimRight (trimLeft l) :=
    trimLeft_trimRight_fix h1
  show trimRight (trimLeft (trimRight (trimLeft l))) = trimRight (trimLeft l)
  rw [h2, trimRight_trimRight]

theorem head?_trimLeft_not_ws :
    ∀ {l : List Char} {c : Char}, (trimLeft l).head? = some c → c.isWhitespace = false := by
  intro l
  induction l with
  | nil => intro c h; simp [trimLeft] at h
  | cons c' t ih =>
    intro c h
    by_cases hc : c'.isWhitespace = true
    · have : trimLeft (c' :: t) = trimLeft t := by
        simp [trimLeft, List.dropWhile_cons, hc]
      rw [this] at h
      exact ih h
    · have : trimLeft (c' :: t) = c' :: t := by
        simp [trimLeft, List.dropWhile_cons, hc]
      rw [this] at h
      simp only [List.head?_cons, Option.some.injEq] at h
      rw [← h]
      simpa using hc

theorem head?_trimRight {l : List Char} {c : Char}
    (h : (trimRight l).head? = some c) : l.head? = some c := by
  cases l with
  | nil => simp [trimRight] at h
  | cons c' t =>
    cases ht : trimRight t with
    | nil =>
      rw [trimRight_cons, ht] at h
      by_cases hc : c'.isWhitespace = true
      · simp [hc] at h
      · simp only [hc, Bool.false_eq_true, if_false, List.head?_cons,
          Option.some.injEq] at h
        simp [h]
    | cons x xs =>
      rw [trimRight_cons, ht] at h
      simp only [List.head?_cons, Option.some.injEq] at h
      simp [h]

theorem getLast?_trimRight_not_ws :
    ∀ {l : List Char} {c : Char}, (trimRight l).getLast? = some c → c.isWhitespace = false := by
  intro l
  induction l with
  | nil => intro c h; simp [trimRight] at h
  | cons c' t ih =>
    intro c h
    cases ht : trimRight t with
    | nil =>
      rw [trimRight_cons, ht] at h
      by_cases hc : c'.isWhitespace = true
      · simp [hc] at h
      · simp only [hc, Bool.false_eq_true, if_false] at h
        simp only [List.getLast?_singleton, Option.some.injEq] at h
        rw [← h]
        simpa using hc
    | cons x xs =>
      rw [trimRight_cons, ht] at h
      rw [List.getLast?_cons_cons] at h
      rw [← ht] at h
      exact ih h

theorem head?_trimWs_not_ws {l : List Char} {c : Char}
    (h : (trimWs l).head? = some c) : c.isWhitespace = false :=
  head?_trimLeft_not_ws (head?_trimRight h)

theorem getLast?_trimWs_not_ws {l : List Char} {c : Char}
    (h : (trimWs l).getLast? = some c) : c.isWhitespace = false :=
  getLast?_trimRight_not_ws h

/-! ### Helper lemmas: the classifier -/

theorem byteLen_nil : byteLen ([] : List Char) = 0 := rfl

theorem byteLen_pos_of_ne_nil {l : List Char} (h : l ≠ []) : 0 < byteLen l := by
  cases l with
  | nil => exact absurd rfl h
  | cons c t =>
    have hc : 1 ≤ charSize c := by
      unfold charSize
      split <;> try omega
      split <;> try omega
      split <;> omega
    simp only [byteLen, List.map_cons, List.sum_cons]
    omega

theorem filter_eq_some_iff (content y : String) :
    NoiseFilter.filter content = some y ↔
      pleasantriesMatch (noiseCleaned content) = false ∧
      acknowledgmentsMatch (noiseCleaned content) = false ∧
      (noiseCleaned content).isEmpty = false ∧
      3 ≤ byteLen (noiseCleaned content) ∧
      y = String.mk (noiseCleaned content) := by
  unfold NoiseFilter.filter
  split_ifs with h1 h2 h3
  · simp [h1]
  · simp [h1, h2]
  · simp only [Bool.or_eq_true, decide_eq_true_iff] at h3
    constructor
    · intro h; simp at h
    · rintro ⟨-, -, he, hlen, -⟩
      rcases h3 with h3 | h3
      · rw [he] at h3; exact absurd h3 (by simp)
      · omega
  · simp only [Bool.or_eq_true, decide_eq_true_iff, not_or] at h3
    obtain ⟨he, hlen⟩ := h3
    simp only [Option.some.injEq]
    constructor
    · intro h
      refine ⟨by simpa using h1, by simpa using h2, by simpa using he, by omega, h.symm⟩
    · rintro ⟨-, -, -, -, rfl⟩
      rfl

theorem filter_eq_none_iff (content : String) :
    NoiseFilter.filter content = none ↔
      pleasantriesMatch (noiseCleaned content) = true ∨
      acknowledgmentsMatch (noiseCleaned content) = true ∨
      byteLen (noiseCleaned content) < 3 := by
  unfold NoiseFilter.filter
  split_ifs with h1 h2 h3
  · simp [h1]
  · simp [h1, h2]
  · simp only [Bool.or_eq_true, decide_eq_true_iff] at h3
    rcases h3 with h3 | h3
    · have : noiseCleaned content = [] := by simpa using h3
      have : byteLen (noiseCleaned content) < 3 := by rw [this]; simp [byteLen_nil]
      simp [this]
    · simp [h3]
  · simp only [Bool.or_eq_true, decide_eq_true_iff, not_or] at h3
    obtain ⟨-, hlen⟩ := h3
    simp only [Option.some_ne_none, false_iff, not_or]
    exact ⟨by simpa using h1, by simpa using h2, by omega⟩

/-! ### Helper lemmas: counting and windows -/

theorem countEq_eq_zero_of_not_mem {α : Type} [DecidableEq α] {x : α} :
    ∀ {l : List α}, x ∉ l → countEq x l = 0 := by
  intro l
  induction l with
  | nil => intro _; rfl
  | cons y t ih =>
    intro h
    have hy : ¬(y = x) := fun he => h (by rw [he]; exact List.mem_cons_self _ _)
    have ht : x ∉ t := fun hm => h (List.mem_cons_of_mem _ hm)
    simp [countEq, hy, ih ht]

theorem countEq_eq_one_of_nodup {α : Type} [DecidableEq α] {x : α} :
    ∀ {l : List α}, l.Nodup → x ∈ l → countEq x l = 1 := by
  intro l
  induction l with
  | nil => intro _ h; simp at h
  | cons y t ih =>
    intro hn hx
    rw [List.nodup_cons] at hn
    obtain ⟨hy, ht⟩ := hn
    rcases List.mem_cons.mp hx with he | hm
    · subst he
      simp [countEq, countEq_eq_zero_of_not_mem hy]
    · have hyx : ¬(y = x) := fun he => hy (by rw [he]; exact hm)
      simp [countEq, hyx, ih ht hm]

theorem foldr_max_le {n : Nat} : ∀ {L : List Nat}, (∀ a ∈ L, a ≤ n) → L.foldr max 0 ≤ n := by
  intro L
  induction L with
  | nil => intro _; simp
  | cons a t ih =>
    intro h
    simp only [List.foldr_cons]
    exact max_le (h a (List.mem_cons_self _ _)) (ih fun b hb => h b (List.mem_cons_of_mem _ hb))

theorem maxCount_le_one_of_nodup {α : Type} [DecidableEq α] {l : List α}
    (h : l.Nodup) : maxCount l ≤ 1 := by
  unfold maxCount
  apply foldr_max_le
  intro a ha
  rw [List.mem_map] at ha
  obtain ⟨x, hx, rfl⟩ := ha
  rw [countEq_eq_one_of_nodup h hx]

theorem maxCount_singleton {α : Type} [DecidableEq α] (x : α) : maxCount [x] = 1 := by
  simp [maxCount, countEq]

theorem windows_mem_head {α : Type} {k : Nat} (hk : 1 ≤ k) :
    ∀ {l : List α} {w : List α}, w ∈ windows k l → ∃ c rest, w = c :: rest ∧ c ∈ l := by
  intro l
  induction l with
  | nil => intro w h; simp [windows] at h
  | cons c t ih =>
    intro w h
    rw [windows] at h
    split at h
    · simp at h
    · rcases List.mem_cons.mp h with he | hm
      · obtain ⟨k', rfl⟩ : ∃ k', k = k' + 1 := ⟨k - 1, by omega⟩
        rw [List.take_succ_cons] at he
        exact ⟨c, List.take k' t, he, List.mem_cons_self _ _⟩
      · obtain ⟨c', rest, hw, hc'⟩ := ih hm
        exact ⟨c', rest, hw, List.mem_cons_of_mem _ hc'⟩

theorem windows_nodup {α : Type} {k : Nat} (hk : 1 ≤ k) :
    ∀ {l : List α}, l.Nodup → (windows k l).Nodup := by
  intro l
  induction l with
  | nil => intro _; simp [windows]
  | cons c t ih =>
    intro hn
    rw [List.nodup_cons] at hn
    obtain ⟨hc, ht⟩ := hn
    rw [windows]
    split
    · exact List.nodup_nil
    · refine List.Nodup.cons ?_ (ih ht)
      intro hmem
      obtain ⟨c', rest, hw, hc'⟩ := windows_mem_head hk hmem
      obtain ⟨k', rfl⟩ : ∃ k', k = k' + 1 := ⟨k - 1, by omega⟩
      rw [List.take_succ_cons] at hw
      have : c = c' := by
        have := congrArg List.head? hw
        simpa using this
      exact hc (this ▸ hc')

/-! ### Helper lemmas: the loop detector -/

theorem detect_content_repetition_pattern_size {d : LoopDetector}
    {msgs : List (String × String)} {det : LoopDetection}
    (h : d.detect_content_repetition msgs = some det) : det.pattern_size = 1 := by
  unfold LoopDetector.detect_content_repetition at h
  split at h
  case h_1 => exact absurd h (by simp)
  case h_2 =>
    split_ifs at h <;>
      (simp only [Option.some.injEq] at h; rw [← h])

theorem find_repeating_pattern_pattern_size {d : LoopDetector}
    {msgs : List (String × String)} {k : Nat} {det : LoopDetection}
    (h : d.find_repeating_pattern msgs k = some det) : det.pattern_size = k := by
  unfold LoopDetector.find_repeating_pattern at h
  split_ifs at h
  split at h
  · exact absurd h (by simp)
  · split_ifs at h <;>
      (simp only [Option.some.injEq] at h; rw [← h])

theorem detect_message_pattern_loops_pattern_size {d : LoopDetector}
    {msgs : List (String × String)} {det : LoopDetection}
    (h : d.detect_message_pattern_loops msgs = some det) :
    2 ≤ det.pattern_size ∧ d.find_repeating_pattern msgs det.pattern_size = some det := by
  unfold LoopDetector.detect_message_pattern_loops at h
  obtain ⟨a, ha, hfa⟩ := List.exists_of_findSome?_eq_some h
  rw [List.mem_range'] at ha
  obtain ⟨i, -, rfl⟩ := ha
  have hps : det.pattern_size = 2 + 1 * i := find_repeating_pattern_pattern_size hfa
  constructor
  · omega
  · rw [hps]; exact hfa

theorem find_repeating_pattern_none_of_nodup {msgs : List (String × String)} {k : Nat}
    (hk : 1 ≤ k) (h : msgs.Nodup) :
    LoopDetector.new.find_repeating_pattern msgs k = none := by
  unfold LoopDetector.find_repeating_pattern
  split_ifs with h0
  · rfl
  · cases hw : windows k msgs with
    | nil => simp
    | cons w ws =>
      have hnd : (w :: ws).Nodup := by
        rw [← hw]; exact windows_nodup hk h
      have hle : maxCount (w :: ws) ≤ 1 := maxCount_le_one_of_nodup hnd
      have g1 : ¬(LoopDetector.new.min_repetitions * 2 ≤ maxCount (w :: ws)) := by
        show ¬(10 * 2 ≤ maxCount (w :: ws)); omega
      have g2 : ¬(LoopDetector.new.min_repetitions ≤ maxCount (w :: ws)) := by
        show ¬(10 ≤ maxCount (w :: ws)); omega
      simp [g1, g2]

theorem detect_message_pattern_loops_none_of_nodup {msgs : List (String × String)}
    (h : msgs.Nodup) :
    LoopDetector.new.detect_message_pattern_loops msgs = none := by
  unfold LoopDetector.detect_message_pattern_loops
  rw [List.findSome?_eq_none_iff]
  intro k hk
  rw [List.mem_range'] at hk
  obtain ⟨i, -, rfl⟩ := hk
  exact find_repeating_pattern_none_of_nodup (by omega) h

theorem detect_content_repetition_none_of_nodup {msgs : List (String × String)}
    (h : (msgs.map fun m => hash_content m.2).Nodup) :
    LoopDetector.new.detect_content_repetition msgs = none := by
  cases msgs with
  | nil => rfl
  | cons m t =>
    have hle : maxCount (hash_content m.2 :: t.map fun x => hash_content x.2) ≤ 1 := by
      have := maxCount_le_one_of_nodup h
      rw [List.map_cons] at this
      exact this
    have g1 : ¬(LoopDetector.new.min_repetitions * 2 ≤
        maxCount (hash_content m.2 :: t.map fun x => hash_content x.2)) := by
      show ¬(10 * 2 ≤ maxCount (hash_content m.2 :: t.map fun x => hash_content x.2))
      omega
    have g2 : ¬(LoopDetector.new.min_repetitions ≤
        maxCount (hash_content m.2 :: t.map fun x => hash_content x.2)) := by
      show ¬(10 ≤ maxCount (hash_content m.2 :: t.map fun x => hash_content x.2))
      omega
    unfold LoopDetector.detect_content_repetition
    simp [g1, g2]

theorem volumeCheck_cases (d : LoopDetector) (n : Nat) :
    d.volumeCheck n = [] ∨
      ∃ x, d.volumeCheck n = [x] ∧ x.pattern_size = 0 := by
  unfold LoopDetector.volumeCheck
  split_ifs
  · exact Or.inr ⟨_, rfl, rfl⟩
  · exact Or.inr ⟨_, rfl, rfl⟩
  · exact Or.inl rfl

theorem findSome?_first {β : Type} (f : Nat → Option β) :
    ∀ (n a k : Nat), a ≤ k → k < a + n → (f k).isSome = true →
      ∃ j b, a ≤ j ∧ j ≤ k ∧ f j = some b ∧
        (∀ i, a ≤ i → i < j → f i = none) ∧
        List.findSome? f (List.range' a n) = some b := by
  intro n
  induction n with
  | zero => intro a k h1 h2 _; omega
  | succ n ih =>
    intro a k h1 h2 h3
    rw [List.range'_succ]
    cases hfa : f a with
    | some b =>
      refine ⟨a, b, le_refl a, h1, hfa, ?_, ?_⟩
      · intro i hi1 hi2; omega
      · simp [List.findSome?_cons, hfa]
    | none =>
      have hak : a ≠ k := by
        intro he
        rw [he] at hfa
        rw [hfa] at h3
        simp at h3
      obtain ⟨j, b, hj1, hj2, hj3, hj4, hj5⟩ := ih (a + 1) k (by omega) (by omega) h3
      refine ⟨j, b, by omega, hj2, hj3, ?_, ?_⟩
      · intro i hi1 hi2
        rcases Nat.eq_or_lt_of_le hi1 with he | hlt
        · rw [← he]; exact hfa
        · exact hj4 i (by omega) hi2
      · rw [List.findSome?_cons, hfa]
        exact hj5

/-! ### Helper lemmas: the batch compressor -/

theorem compress_batch_cons (r c : String) (rest : List (String × String)) :
    MessageCompressor.compress_batch ((r, c) :: rest) =
      match NoiseFilter.filter c with
      | some y => (r, y) :: MessageCompressor.compress_batch rest
      | none => MessageCompressor.compress_batch rest := by
  unfold MessageCompressor.compress_batch
  rw [List.filterMap_cons]
  cases hc : NoiseFilter.filter c with
  | none => simp
  | some y => simp

theorem compress_batch_mem {msgs : List (String × String)} {p : String × String}
    (hp : p ∈ MessageCompressor.compress_batch msgs) :
    ∃ c, (p.1, c) ∈ msgs ∧ NoiseFilter.filter c = some p.2 := by
  unfold MessageCompressor.compress_batch at hp
  rw [List.mem_filterMap] at hp
  obtain ⟨a, ha, hfa⟩ := hp
  cases hfc : NoiseFilter.filter a.2 with
  | none => rw [hfc] at hfa; simp at hfa
  | some y =>
    rw [hfc] at hfa
    simp only [Option.map_some', Option.some.injEq] at hfa
    refine ⟨a.2, ?_, ?_⟩
    · have h1 : p.1 = a.1 := by rw [← hfa]
      rw [h1]
      have h2 : (a.1, a.2) = a := rfl
      rw [h2]
      exact ha
    · have h2 : p.2 = y := by rw [← hfa]
      rw [h2]
      exact hfc

theorem filter_some_well_formed {content s : String}
    (h : NoiseFilter.filter content = some s) :
    (∀ c, s.data.head? = some c → c.isWhitespace = false) ∧
    (∀ c, s.data.getLast? = some c → c.isWhitespace = false) ∧
    3 ≤ byteLen s.data ∧ s ≠ "" := by
  obtain ⟨-, -, -, hlen, hy⟩ := (filter_eq_some_iff content s).mp h
  have hdata : s.data = noiseCleaned content := by rw [hy]
  have hlen' : 3 ≤ byteLen s.data := by rw [hdata]; exact hlen
  refine ⟨?_, ?_, hlen', ?_⟩
  · intro c hc
    rw [hdata] at hc
    exact head?_trimWs_not_ws hc
  · intro c hc
    rw [hdata] at hc
    exact getLast?_trimWs_not_ws hc
  · intro he
    rw [he] at hlen'
    exact absurd hlen' (by decide)

/-! ### The claims -/

/-- C1, corrected: `NoiseFilter::filter` returns `None` exactly when the
stripped and trimmed content matches a pleasantry pattern, matches an
acknowledgment pattern, or retains fewer than 3 bytes.  The standalone
pleasantry, enthusiasm and acknowledgment patterns are anchored to the
whole string, but the polite-opener pattern is anchored at the start only
and the polite-closer pattern is unanchored, so a message that merely
begins with an opener or contains a closer is dropped whole even when it
also carries substantive content.  `filter "please"` is noise while
`filter "please implement the retry logic"` survives unchanged. -/
theorem C1_noise_condition :
    (∀ content : String,
        (NoiseFilter.filter content = none ↔
          pleasantriesMatch (noiseCleaned content) = true ∨
          acknowledgmentsMatch (noiseCleaned content) = true ∨
          byteLen (noiseCleaned content) < 3))
    ∧ NoiseFilter.filter "please" = none
    ∧ NoiseFilter.filter "please implement the retry logic" =
        some "please implement the retry logic"
    ∧ NoiseFilter.filter "I'll implement the retry logic" = none
    ∧ NoiseFilter.filter "The patch is ready. Let me know if you need anything else." =
        none :=
  ⟨filter_eq_none_iff, by decide, by decide, by decide, by decide⟩

/-- C1 counterexample: a message that begins with the polite opener
"I'll" and continues with substantive technical content is classified as
noise in its entirety, so a pleasantry occurring as a proper substring of
substantive text can make the whole message noise. -/
theorem C1_counterexample :
    NoiseFilter.filter "I'll implement the retry logic" = none := by decide

/-- C3, corrected: a second classification pass returns the cleaned text
unchanged provided boilerplate stripping is the identity on that cleaned
text.  The proviso is necessary: stripping one boilerplate block can
stitch together the delimiters of another, which the second pass then
removes. -/
theorem C3_idempotent_without_boilerplate (x y : String)
    (hx : NoiseFilter.filter x = some y)
    (hs : stripBoilerplate y.data = y.data) :
    NoiseFilter.filter y = some y := by
  obtain ⟨h1, h2, h3, h4, hy⟩ := (filter_eq_some_iff x y).mp hx
  have hyd : y.data = noiseCleaned x := by rw [hy]
  have hcl : noiseCleaned y = noiseCleaned x := by
    show trimWs (stripBoilerplate y.data) = noiseCleaned x
    rw [hs, hyd]
    show trimWs (trimWs (stripBoilerplate x.data)) = trimWs (stripBoilerplate x.data)
    exact trimWs_idem _
  rw [filter_eq_some_iff y y, hcl]
  exact ⟨h1, h2, h3, h4, hy⟩

theorem C3_witness : NoiseFilter.filter "hello world" = some "hello world" :=
  C3_idempotent_without_boilerplate "hello world" "hello world" (by decide) (by decide)

/-- C3 counterexample: stripping the system-reminder block of this content
stitches together an environment-context block, so the first pass returns
a cleaned text that the second pass classifies as noise: classification is
not idempotent on its own output. -/
theorem C3_counterexample :
    NoiseFilter.filter
        "<env<system-reminder>hi</system-reminder>ironment_context>abcdef</environment_context>" =
      some "<environment_context>abcdef</environment_context>"
    ∧ NoiseFilter.filter "<environment_context>abcdef</environment_context>" = none :=
  ⟨by decide, by decide⟩

/-- C6: `compress_batch` classifies each message's content independently
(cons equation), keeps exactly the survivors in their original order with
roles unchanged (the projected role list is a sublist of the input's), and
every output pair stems from an input message with the same role whose
content cleans to the output content. -/
theorem C6_compress_batch_shape :
    (∀ (r c : String) (rest : List (String × String)),
        MessageCompressor.compress_batch ((r, c) :: rest) =
          match NoiseFilter.filter c with
          | some y => (r, y) :: MessageCompressor.compress_batch rest
          | none => MessageCompressor.compress_batch rest)
    ∧ MessageCompressor.compress_batch [] = []
    ∧ (∀ msgs : List (String × String),
        ((MessageCompressor.compress_batch msgs).map Prod.fst).Sublist
          (msgs.map Prod.fst))
    ∧ (∀ (msgs : List (String × String)) (p : String × String),
        p ∈ MessageCompressor.compress_batch msgs →
        ∃ c, (p.1, c) ∈ msgs ∧ NoiseFilter.filter c = some p.2) := by
  refine ⟨compress_batch_cons, rfl, ?_, fun msgs p hp => compress_batch_mem hp⟩
  intro msgs
  induction msgs with
  | nil => simp [MessageCompressor.compress_batch]
  | cons m t ih =>
    obtain ⟨r, c⟩ := m
    rw [compress_batch_cons]
    cases hc : NoiseFilter.filter c with
    | none => simpa using List.Sublist.cons r ih
    | some y => simpa using List.Sublist.cons₂ r ih

theorem C6_witness :
    ∃ c, (("u" : String), c) ∈ [(("u" : String), ("hello world" : String))] ∧
      NoiseFilter.filter c = some "hello world" :=
  C6_compress_batch_shape.2.2.2 [("u", "hello world")] ("u", "hello world") (by decide)

/-- C7, corrected: the minimum-content floor is measured in UTF-8 bytes of
the trimmed result (Rust `str::len`), not in characters: whenever fewer
than 3 bytes remain after stripping and trimming, `filter` returns
`None`. -/
theorem C7_min_length_floor (content : String)
    (h : byteLen (noiseCleaned content) < 3) :
    NoiseFilter.filter content = none :=
  (filter_eq_none_iff content).mpr (Or.inr (Or.inr h))

theorem C7_witness : NoiseFilter.filter "ab" = none :=
  C7_min_length_floor "ab" (by decide)

/-- C7 counterexample: a content of two two-byte characters is shorter
than 3 characters after trimming, yet it survives classification because
its 4 bytes meet the byte-measured floor. -/
theorem C7_counterexample :
    (noiseCleaned "éé").length = 2 ∧ byteLen (noiseCleaned "éé") = 4 ∧
      NoiseFilter.filter "éé" = some "éé" :=
  ⟨by decide, by decide, by decide⟩

/-- C9: whenever `filter` returns `Some s`, the string `s` carries no
leading or trailing whitespace and is at least 3 bytes long; consequently
`compress_batch` never emits a message whose content is empty or
whitespace-padded. -/
theorem C9_output_well_formed :
    (∀ (content s : String), NoiseFilter.filter content = some s →
        (∀ c, s.data.head? = some c → c.isWhitespace = false) ∧
        (∀ c, s.data.getLast? = some c → c.isWhitespace = false) ∧
        3 ≤ byteLen s.data ∧ s ≠ "")
    ∧ (∀ (msgs : List (String × String)) (p : String × String),
        p ∈ MessageCompressor.compress_batch msgs →
        (∀ c, p.2.data.head? = some c → c.isWhitespace = false) ∧
        (∀ c, p.2.data.getLast? = some c → c.isWhitespace = false) ∧
        3 ≤ byteLen p.2.data ∧ p.2 ≠ "") := by
  refine ⟨fun content s h => filter_some_well_formed h, ?_⟩
  intro msgs p hp
  obtain ⟨c, -, hc⟩ := compress_batch_mem hp
  exact filter_some_well_formed hc

theorem C9_witness : 3 ≤ byteLen (("hello" : String).data) :=
  (C9_output_well_formed.1 "hello" "hello" (by decide)).2.2.1

/-! ### Helper lemmas: filtering the findings of `analyze` by pattern size -/

theorem filter_ps0_toList_content (msgs : List (String × String)) :
    ((LoopDetector.new.detect_content_repetition msgs).toList.filter
      fun d => d.pattern_size == 0) = [] := by
  cases h : LoopDetector.new.detect_content_repetition msgs with
  | none => rfl
  | some det =>
    have h1 := detect_content_repetition_pattern_size h
    simp [Option.toList, List.filter, h1]

theorem filter_ps0_toList_loops (msgs : List (String × String)) :
    ((LoopDetector.new.detect_message_pattern_loops msgs).toList.filter
      fun d => d.pattern_size == 0) = [] := by
  cases h : LoopDetector.new.detect_message_pattern_loops msgs with
  | none => rfl
  | some det =>
    obtain ⟨h2, -⟩ := detect_message_pattern_loops_pattern_size h
    have h1 : (det.pattern_size == 0) = false := by
      simp only [beq_eq_false_iff_ne, ne_eq]
      omega
    simp [Option.toList, List.filter, h1]

theorem volume_filter_ps0 (n : Nat) :
    ((LoopDetector.new.volumeCheck n).filter fun d => d.pattern_size == 0) =
      LoopDetector.new.volumeCheck n := by
  unfold LoopDetector.volumeCheck
  split_ifs <;> rfl

theorem analyze_filter_ps0 (msgs : List (String × String)) :
    ((LoopDetector.new.analyze msgs).filter fun d => d.pattern_size == 0) =
      LoopDetector.new.volumeCheck msgs.length := by
  unfold LoopDetector.analyze
  rw [List.filter_append, List.filter_append, volume_filter_ps0,
    filter_ps0_toList_content, filter_ps0_toList_loops]
  simp

/-- C2, corrected: a batch of 20 byte-identical messages gives a Pass-B
finding with pattern_size 1 and repetition_count 20, but with severity
Critical, not Warning: the rule `max_count >= 2 * min_repetitions = 20` is
met at exactly 20.  Maximum counts in `[10, 20)` give Warning, and the
severity is Critical exactly when the maximum count reaches 20. -/
theorem C2_identical_content_threshold :
    (((LoopDetector.new.detect_content_repetition batch20).map fun d =>
        (d.severity, d.repetition_count, d.pattern_size)) =
      some (LoopSeverity.Critical, 20, 1))
    ∧ (((LoopDetector.new.detect_content_repetition batch19).map fun d =>
        (d.severity, d.repetition_count, d.pattern_size)) =
      some (LoopSeverity.Warning, 19, 1))
    ∧ (∀ msgs : List (String × String), msgs ≠ [] →
        (((LoopDetector.new.detect_content_repetition msgs).map fun d => d.severity) =
            some LoopSeverity.Critical ↔
          20 ≤ maxCount (msgs.map fun m => hash_content m.2))) := by
  refine ⟨by decide, by decide, ?_⟩
  intro msgs hne
  cases msgs with
  | nil => exact absurd rfl hne
  | cons m t =>
    unfold LoopDetector.detect_content_repetition
    split_ifs with h1 h2
    · have h1' : 20 ≤ maxCount ((m :: t).map fun x => hash_content x.2) := h1
      simpa using h1'
    · have h1' : ¬(20 ≤ maxCount ((m :: t).map fun x => hash_content x.2)) := h1
      simpa using h1'
    · have h1' : ¬(20 ≤ maxCount ((m :: t).map fun x => hash_content x.2)) := h1
      simpa using h1'

/-- C2 counterexample: at a repetition count of exactly 20, Pass B reports
Critical, not Warning as the claim states. -/
theorem C2_counterexample :
    (((LoopDetector.new.detect_content_repetition batch20).map fun d =>
        (d.severity, d.repetition_count, d.pattern_size)) =
      some (LoopSeverity.Critical, 20, 1))
    ∧ ¬(((LoopDetector.new.detect_content_repetition batch20).map fun d =>
        (d.severity, d.repetition_count, d.pattern_size)) =
      some (LoopSeverity.Warning, 20, 1)) :=
  ⟨by decide, by decide⟩

theorem C2_witness :
    ((LoopDetector.new.detect_content_repetition batch20).map fun d => d.severity) =
      some LoopSeverity.Critical :=
  (C2_identical_content_threshold.2.2 batch20 (by decide)).mpr (by decide)

/-- C4: Pass C scans window sizes from 2 up to `min(10, len/4)` and does
nothing when that bound is below 2; a size `k` with `len < k * 10` yields
nothing; when some size in range qualifies, the detector returns the
finding of the first (smallest) qualifying size and its pattern_size is
that size; and on 25 repetitions of a fixed 2-message exchange, where both
sizes 2 and 4 qualify, the size-2 finding is returned. -/
theorem C4_pattern_scan_order :
    (∀ msgs : List (String × String), min 10 (msgs.length / 4) < 2 →
        LoopDetector.new.detect_message_pattern_loops msgs = none)
    ∧ (∀ (msgs : List (String × String)) (k : Nat), msgs.length < k * 10 →
        LoopDetector.new.find_repeating_pattern msgs k = none)
    ∧ (∀ (msgs : List (String × String)) (k : Nat) (det : LoopDetection),
        2 ≤ k → k ≤ min 10 (msgs.length / 4) →
        LoopDetector.new.find_repeating_pattern msgs k = some det →
        ∃ j det', 2 ≤ j ∧ j ≤ k ∧
          LoopDetector.new.detect_message_pattern_loops msgs = some det' ∧
          LoopDetector.new.find_repeating_pattern msgs j = some det' ∧
          det'.pattern_size = j ∧
          (∀ i, 2 ≤ i → i < j →
            LoopDetector.new.find_repeating_pattern msgs i = none))
    ∧ LoopDetector.new.detect_message_pattern_loops (pairBatch 25) =
        some { severity := LoopSeverity.Critical
               message := "Message pattern of 2 messages repeated 25 times (threshold: 20)"
               repetition_count := 25
               pattern_size := 2 }
    ∧ (LoopDetector.new.find_repeating_pattern (pairBatch 25) 4).isSome = true := by
  refine ⟨?_, ?_, ?_, by decide, by decide⟩
  · intro msgs h
    unfold LoopDetector.detect_message_pattern_loops
    have h0 : min LoopDetector.new.max_pattern_size (msgs.length / 4) - 1 = 0 := by
      show min 10 (msgs.length / 4) - 1 = 0
      omega
    rw [h0]
    rfl
  · intro msgs k h
    unfold LoopDetector.find_repeating_pattern
    have hc : msgs.length < k * LoopDetector.new.min_repetitions := h
    rw [if_pos hc]
  · intro msgs k det h2 hk hfind
    have hlt : k < 2 + (min 10 (msgs.length / 4) - 1) := by omega
    obtain ⟨j, b, hj1, hj2, hj3, hj4, hj5⟩ :=
      findSome?_first (LoopDetector.new.find_repeating_pattern msgs)
        (min 10 (msgs.length / 4) - 1) 2 k h2 hlt (by rw [hfind]; rfl)
    refine ⟨j, b, hj1, hj2, ?_, hj3, find_repeating_pattern_pattern_size hj3, hj4⟩
    unfold LoopDetector.detect_message_pattern_loops
    exact hj5

theorem C4_witness : LoopDetector.new.find_repeating_pattern [("u", "a")] 2 = none :=
  C4_pattern_scan_order.2.1 [("u", "a")] 2 (by decide)

/-- C5: the volume pass alone produces the pattern-size-0 findings: one
Critical finding at 200 or more messages, one Warning finding from 100 to
199, none below 100; and a batch of exactly 100 pairwise-distinct messages
yields exactly the volume Warning finding and no finding from the other
two passes. -/
theorem C5_volume_thresholds :
    (∀ msgs : List (String × String), 200 ≤ msgs.length →
        (((LoopDetector.new.analyze msgs).filter fun d => d.pattern_size == 0).map
          fun d => d.severity) = [LoopSeverity.Critical])
    ∧ (∀ msgs : List (String × String), 100 ≤ msgs.length → msgs.length < 200 →
        (((LoopDetector.new.analyze msgs).filter fun d => d.pattern_size == 0).map
          fun d => d.severity) = [LoopSeverity.Warning])
    ∧ (∀ msgs : List (String × String), msgs.length < 100 →
        ((LoopDetector.new.analyze msgs).filter fun d => d.pattern_size == 0) = [])
    ∧ LoopDetector.new.analyze batch100 =
        [ { severity := LoopSeverity.Warning
            message := "High message count: 100 messages (threshold: 100)"
            repetition_count := 0
            pattern_size := 0 } ] := by
  refine ⟨?_, ?_, ?_, ?_⟩
  · intro msgs h
    rw [analyze_filter_ps0]
    unfold LoopDetector.volumeCheck
    have hc : LoopDetector.new.max_messages_critical ≤ msgs.length := h
    rw [if_pos hc]
    rfl
  · intro msgs h1 h2
    rw [analyze_filter_ps0]
    unfold LoopDetector.volumeCheck
    have hc1 : ¬(LoopDetector.new.max_messages_critical ≤ msgs.length) := by
      show ¬(200 ≤ msgs.length)
      omega
    have hc2 : LoopDetector.new.max_messages_warning ≤ msgs.length := h1
    rw [if_neg hc1, if_pos hc2]
    rfl
  · intro msgs h
    rw [analyze_filter_ps0]
    unfold LoopDetector.volumeCheck
    have hc1 : ¬(LoopDetector.new.max_messages_critical ≤ msgs.length) := by
      show ¬(200 ≤ msgs.length)
      omega
    have hc2 : ¬(LoopDetector.new.max_messages_warning ≤ msgs.length) := by
      show ¬(100 ≤ msgs.length)
      omega
    rw [if_neg hc1, if_neg hc2]
  · have h1 : (batch100.map fun m => hash_content m.2).Nodup := by decide
    have h2 : batch100.Nodup := by decide
    unfold LoopDetector.analyze
    rw [detect_content_repetition_none_of_nodup h1,
      detect_message_pattern_loops_none_of_nodup h2]
    have hlen : batch100.length = 100 := by decide
    rw [hlen]
    decide

theorem C5_witness :
    (((LoopDetector.new.analyze (List.replicate 200 ("u", "m"))).filter
        fun d => d.pattern_size == 0).map fun d => d.severity) =
      [LoopSeverity.Critical] :=
  C5_volume_thresholds.1 (List.replicate 200 ("u", "m")) (by decide)

/-- C8: in this embedding every operation of the detector is a total
function; a batch of size zero or one yields no finding from any pass. -/
theorem C8_trivial_batches :
    LoopDetector.new.analyze [] = []
    ∧ ∀ m : String × String, LoopDetector.new.analyze [m] = [] := by
  refine ⟨by decide, ?_⟩
  intro m
  have h1 : LoopDetector.new.volumeCheck [m].length = [] := rfl
  have h2 : LoopDetector.new.detect_content_repetition [m] = none := by
    have hmax : maxCount [hash_content m.2] = 1 := maxCount_singleton _
    unfold LoopDetector.detect_content_repetition
    simp [hmax, LoopDetector.new]
  have h3 : LoopDetector.new.detect_message_pattern_loops [m] = none := by
    unfold LoopDetector.detect_message_pattern_loops
    have h0 : min LoopDetector.new.max_pattern_size ([m].length / 4) - 1 = 0 := by
      show min 10 ([m].length / 4) - 1 = 0
      simp
    rw [h0]
    rfl
  unfold LoopDetector.analyze
  rw [h1, h2, h3]
  rfl

/-- C10: `analyze` returns at most three findings, at most one of each
shape: pattern_size 0 (volume), pattern_size 1 (identical content), and
pattern_size at least 2 (repeating subsequence). -/
theorem C10_finding_shape (msgs : List (String × String)) :
    (LoopDetector.new.analyze msgs).length ≤ 3
    ∧ ((LoopDetector.new.analyze msgs).countP fun d => d.pattern_size == 0) ≤ 1
    ∧ ((LoopDetector.new.analyze msgs).countP fun d => d.pattern_size == 1) ≤ 1
    ∧ ((LoopDetector.new.analyze msgs).countP fun d => decide (2 ≤ d.pattern_size)) ≤ 1 := by
  have hV := volumeCheck_cases LoopDetector.new msgs.length
  unfold LoopDetector.analyze
  cases hB : LoopDetector.new.detect_content_repetition msgs with
  | none =>
    cases hC : LoopDetector.new.detect_message_pattern_loops msgs with
    | none =>
      rcases hV with hV | ⟨x, hV, hx⟩
      · simp [hV, List.countP_append, List.countP_cons]
      · simp [hV, List.countP_append, List.countP_cons, hx]
    | some det2 =>
      obtain ⟨hd2, -⟩ := detect_message_pattern_loops_pattern_size hC
      have e1 : (det2.pattern_size == 0) = false := by
        simp only [beq_eq_false_iff_ne, ne_eq]; omega
      have e2 : (det2.pattern_size == 1) = false := by
        simp only [beq_eq_false_iff_ne, ne_eq]; omega
      have e3 : decide (2 ≤ det2.pattern_size) = true := by simp [hd2]
      rcases hV with hV | ⟨x, hV, hx⟩
      · simp [hV, List.countP_append, List.countP_cons, e1, e2, e3]
      · simp [hV, List.countP_append, List.countP_cons, e1, e2, e3, hx]
  | some det1 =>
    have f1 : det1.pattern_size = 1 := detect_content_repetition_pattern_size hB
    cases hC : LoopDetector.new.detect_message_pattern_loops msgs with
    | none =>
      rcases hV with hV | ⟨x, hV, hx⟩
      · simp [hV, List.countP_append, List.countP_cons, f1]
      · simp [hV, List.countP_append, List.countP_cons, f1, hx]
    | some det2 =>
      obtain ⟨hd2, -⟩ := detect_message_pattern_loops_pattern_size hC
      have e1 : (det2.pattern_size == 0) = false := by
        simp only [beq_eq_false_iff_ne, ne_eq]; omega
      have e2 : (det2.pattern_size == 1) = false := by
        simp only [beq_eq_false_iff_ne, ne_eq]; omega
      have e3 : decide (2 ≤ det2.pattern_size) = true := by simp [hd2]
      rcases hV with hV | ⟨x, hV, hx⟩
      · simp [hV, List.countP_append, List.countP_cons, f1, e1, e2, e3]
      · simp [hV, List.countP_append, List.countP_cons, f1, e1, e2, e3, hx]

end Continuum
